import Mathlib

/-!
Verification of the prompt-execution orchestrator of `castocolina/learn-cloud`
(`src/python/prompt_utils/`): a shallow embedding of the partition detector,
the Claude/Gemini command builder, the error classifier, the execution-state
store, the resumption planner, the unified prompt schema and the execution
engine, together with theorems settling the specified properties.

Conventions of the embedding:
* Python `Optional[str]` becomes `Option String`; Python truthiness of a
  string option (`if model:`) is `truthyStr`.
* Filesystem and subprocess results are passed in as explicit arguments
  (e.g. the directory listing consumed by `detect_units`, or the result of
  the agent invocation consumed by the retry loop).
* A Python expression that can raise is modelled with `Except String`/`Option`.
-/

namespace LearnCloud

/-- Python truthiness of an optional string: `None` and `""` are falsy. -/
def truthyStr : Option String → Bool
  | none => false
  | some s => s ≠ ""

/-- Here `isPrefixL p l` holds when the char list `p` is a prefix of `l`. -/
def isPrefixL : List Char → List Char → Bool
  | [], _ => true
  | _ :: _, [] => false
  | a :: as, b :: bs => a == b && isPrefixL as bs

/-- Here `isInfixL p l` holds when the char list `p` occurs contiguously inside `l`
(models Python `re.search` of a literal pattern / `in` on strings). -/
def isInfixL (pat : List Char) : List Char → Bool
  | [] => isPrefixL pat []
  | l@(_ :: rest) => isPrefixL pat l || isInfixL pat rest

/-- Literal-substring occurrence on strings. -/
def strContains (s pat : String) : Bool := isInfixL pat.toList s.toList

/-- Python `str.lower()` (character-wise lowering). -/
def pyLower (s : String) : String := String.mk (s.toList.map Char.toLower)

/-- Accumulating worker for whitespace splitting (Python `str.split()` with
no argument: split on runs of whitespace, dropping empty fields). -/
def wordsGo : List Char → List Char → List (List Char) → List (List Char)
  | [], cur, acc => if cur.isEmpty then acc.reverse else (cur.reverse :: acc).reverse
  | c :: cs, cur, acc =>
    if c.isWhitespace then
      if cur.isEmpty then wordsGo cs [] acc else wordsGo cs [] (cur.reverse :: acc)
    else wordsGo cs (c :: cur) acc

/-- Python `s.strip().split()`: whitespace-separated non-empty fields. -/
def pySplitWhitespace (s : String) : List String :=
  (wordsGo s.toList [] []).map (fun l => String.mk l)

namespace Utils

/-- One entry of the `src/book/` directory listing consumed by `detect_units`. -/
structure DirEntry where
  name : String
  isDir : Bool
deriving DecidableEq

/-- Sum of a digit run, as Python `int(...)` of the matched group. -/
def digitsToNat (l : List Char) : Nat :=
  l.foldl (fun n c => n * 10 + (c.toNat - '0'.toNat)) 0

/-- Models `re.match(r'unit(\d+)', name)`: the name starts with `unit` followed by at
least one digit; returns the numeric ordinal of the (maximal) digit run. -/
def unitOrdinal : String → Option Nat
  | name =>
    let cs := name.toList
    if isPrefixL "unit".toList cs then
      let ds := (cs.drop 4).takeWhile Char.isDigit
      if ds.isEmpty then none else some (digitsToNat ds)
    else none

/-- The sort key used by `detect_units`: `int(re.match(r'unit(\d+)', x).group(1))`.
Every element reaching the sort has an ordinal, so the default is never used. -/
def unitKey (name : String) : Nat := (unitOrdinal name).getD 0

/-- Stable ordered insertion by `unitKey` (Python `list.sort` is stable;
the inserted element precedes later elements with an equal key). -/
def insertByKey (x : String) : List String → List String
  | [] => [x]
  | y :: ys => if unitKey y < unitKey x then y :: insertByKey x ys else x :: y :: ys

/-- Insertion sort by `unitKey`, modelling `units.sort(key=...)`. -/
def sortByKey : List String → List String
  | [] => []
  | x :: xs => insertByKey x (sortByKey xs)

/-- Models `detect_units()` over an explicit listing of `src/book/`: keep directories
whose name matches `unit(\d+)`, sorted numerically by the embedded ordinal.
(The `startswith("unit")` pre-check is implied by the regex match.) -/
def detect_units (entries : List DirEntry) : List String :=
  let units := entries.filterMap fun e =>
    if e.isDir && isPrefixL "unit".toList e.name.toList && (unitOrdinal e.name).isSome
    then some e.name else none
  sortByKey units

end Utils

namespace AgentHandler

/-- The agent configuration record read from `agents.yaml`
(the fields `_build_claude_command` consults). -/
structure AgentConfig where
  agent_name : String
  model : Option String
  fallback_model : Option String
  param_yolo_mode : Option String
  edition_available : Bool
  param_continue : Option String
  param_json_stream_output : Option String
  param_json_output : Option String
deriving DecidableEq

/-- Models `UnifiedAgentHandler._parse_param_string`: split a parameter string into
arguments on whitespace, dropping empty fields. -/
def parseParamString : Option String → List String
  | none => []
  | some s => (pySplitWhitespace s).filter (fun p => p ≠ "")

/-- Models `UnifiedAgentHandler._should_use_continue`. `detected` is the result of
the live `detect_units()` call made inside the function: `none` models the
call raising (the `except` branch returns `False`). -/
def shouldUseContinue (execution_scope unit : Option String)
    (detected : Option (List String)) : Bool :=
  if execution_scope ≠ some "per-unit" then false
  else match unit with
    | none => false
    | some u =>
      if u = "" then false
      else match detected with
        | none => false
        | some available_units =>
          if available_units.length ≤ 1 then false
          else match available_units with
            | [] => false
            | first :: _ => !(u == first)

/-- Models `UnifiedAgentHandler._build_claude_command`. `detected` is the live
`detect_units()` result observed by `_should_use_continue` during the call. -/
def buildClaudeCommand (cfg : AgentConfig) (prompt : String) (yoloRun : Bool)
    (unit execution_scope : Option String) (detected : Option (List String)) :
    List String :=
  let cmd := ["claude"]
  let cmd := cmd ++ (if truthyStr cfg.model then ["--model", cfg.model.getD ""] else [])
  let cmd := cmd ++
    (if truthyStr cfg.fallback_model then ["--fallback-model", cfg.fallback_model.getD ""] else [])
  let cmd := cmd ++
    (if yoloRun then
      (if cfg.edition_available && truthyStr cfg.param_yolo_mode then [cfg.param_yolo_mode.getD ""] else [])
      ++ (if truthyStr cfg.param_continue && shouldUseContinue execution_scope unit detected
          then [cfg.param_continue.getD ""] else [])
      ++ (if truthyStr cfg.param_json_stream_output then parseParamString cfg.param_json_stream_output
          else if truthyStr cfg.param_json_output then parseParamString cfg.param_json_output
          else [])
    else [])
  cmd ++ ["-p", prompt]

/-- The fixed part of the execution-mode Claude command that precedes the
continuation flag: program name, model, fallback model and the
permission-skipping flag. -/
def claudeCmdHead (cfg : AgentConfig) : List String :=
  ["claude"]
  ++ (if truthyStr cfg.model then ["--model", cfg.model.getD ""] else [])
  ++ (if truthyStr cfg.fallback_model then ["--fallback-model", cfg.fallback_model.getD ""] else [])
  ++ (if cfg.edition_available && truthyStr cfg.param_yolo_mode then [cfg.param_yolo_mode.getD ""] else [])

/-- The JSON-output arguments of the execution-mode Claude command
(streaming JSON prioritised over plain JSON). -/
def claudeJsonArgs (cfg : AgentConfig) : List String :=
  if truthyStr cfg.param_json_stream_output then parseParamString cfg.param_json_stream_output
  else if truthyStr cfg.param_json_output then parseParamString cfg.param_json_output
  else []

/-- Continuation eligibility as the specification words it: the flag is due
iff the scope is per-unit, a (non-empty) unit is supplied, the profile
declares continuation support (non-empty `param_continue`), at least two
units exist in the freshly recomputed partition list, and the supplied unit
is not its first element; `detected = none` (the detector raised) fails
closed. -/
def continuationEligibleSpec (param_continue execution_scope unit : Option String)
    (detected : Option (List String)) : Bool :=
  truthyStr param_continue
  && (execution_scope == some "per-unit")
  && (match unit with
      | none => false
      | some u =>
        (u != "")
        && (match detected with
            | none => false
            | some units =>
              decide (2 ≤ units.length)
              && (match units.head? with
                  | some first => !(u == first)
                  | none => false)))

theorem shouldUseContinue_eq_spec (pc scope unit : Option String)
    (detected : Option (List String)) :
    (truthyStr pc && shouldUseContinue scope unit detected)
      = continuationEligibleSpec pc scope unit detected := by
  cases hpc : truthyStr pc with
  | false => simp [continuationEligibleSpec, hpc]
  | true =>
    simp only [continuationEligibleSpec, hpc, Bool.true_and, shouldUseContinue]
    by_cases hs : scope = some "per-unit"
    · subst hs
      simp only [ne_eq, not_true_eq_false, if_false, beq_self_eq_true, Bool.true_and]
      cases unit with
      | none => rfl
      | some u =>
        by_cases hu : u = ""
        · simp [hu]
        · have hu' : (u != "") = true := by simp [bne_iff_ne, hu]
          simp only [hu, if_false, hu', Bool.true_and]
          cases detected with
          | none => rfl
          | some units =>
            match units with
            | [] => simp
            | [a] => simp
            | a :: b :: t =>
              have h1 : ¬ ((a :: b :: t).length ≤ 1) := by simp
              have h2 : 2 ≤ (a :: b :: t).length := by simp
              simp [h1, h2]
    · have hs' : (scope == some "per-unit") = false := by
        simp [beq_eq_false_iff_ne, hs]
      simp [hs, hs']

/-- C1: For every execution scope, unit and agent profile, the execution-mode
Claude command consists of the fixed head, then the continue-previous-session
flag exactly when the specification's continuation-eligibility condition
holds (scope per-unit, unit supplied, non-empty `param_continue`, at least
two live units, unit not the first live unit; detector failure fails
closed), then the JSON-output arguments and the prompt. -/
theorem c1_continuation_flag (cfg : AgentConfig) (prompt : String)
    (unit scope : Option String) (detected : Option (List String)) :
    buildClaudeCommand cfg prompt true unit scope detected
      = claudeCmdHead cfg
        ++ (if continuationEligibleSpec cfg.param_continue scope unit detected
            then [cfg.param_continue.getD ""] else [])
        ++ claudeJsonArgs cfg ++ ["-p", prompt] := by
  rw [← shouldUseContinue_eq_spec]
  simp [buildClaudeCommand, claudeCmdHead, claudeJsonArgs, List.append_assoc]

end AgentHandler

namespace AuditLog

/-- The execution-status enumeration of `audit_logger.ExecutionStatus`;
`failed_rate_limit`, `failed_permissions` and so on are the code's names for
the spec taxonomy's RateLimited, PermissionError, …. -/
inductive AStatus where
  | enabled
  | needs_refinement
  | completed
  | failed
  | failed_rate_limit
  | failed_network
  | failed_parsing
  | failed_permissions
  | failed_timeout
  | failed_unknown
deriving DecidableEq

/-- Models `ErrorPattern.CLAUDE_PATTERNS`: each regex is an alternation of literal
strings; matching with `re.IGNORECASE` on the already lower-cased combined
output is occurrence of one lower-case alternative as a substring. -/
def claudePatterns : List (List String × AStatus) :=
  [ (["5-hour limit reached", "5 hour limit"], .failed_rate_limit),
    (["rate limit", "quota exceeded", "too many requests"], .failed_rate_limit),
    (["authentication failed", "invalid api key"], .failed_permissions) ]

/-- Models `ErrorPattern.GEMINI_PATTERNS`. -/
def geminiPatterns : List (List String × AStatus) :=
  [ (["daily limit", "quota exceeded"], .failed_rate_limit),
    (["rate limit exceeded"], .failed_rate_limit),
    (["authentication error", "invalid key"], .failed_permissions),
    (["network timeout"], .failed_network),
    (["forbidden"], .failed_permissions) ]

/-- Models `ErrorPattern.GENERAL_PATTERNS` (the `error:|ERROR:` alternation collapses
to one alternative on lower-cased text; `json\.decoder\.JSONDecodeError`
has its escaped dots as literal dots). -/
def generalPatterns : List (List String × AStatus) :=
  [ (["timeout", "timed out"], .failed_timeout),
    (["connection refused", "network error", "connection error"], .failed_network),
    (["permission denied", "access denied"], .failed_permissions),
    (["json.decoder.jsondecodeerror", "invalid json"], .failed_parsing),
    (["parse error", "parsing failed"], .failed_parsing),
    (["error:"], .failed_unknown),
    (["exception:"], .failed_unknown),
    (["failed to", "failure:"], .failed_unknown),
    (["unable to", "cannot"], .failed_unknown) ]

/-- A pattern (alternation of literals) matches the combined text. -/
def patternMatches (combined : String) (alts : List String) : Bool :=
  alts.any (fun alt => strContains combined alt)

/-- First matching pattern in list order, if any. -/
def firstMatch (combined : String) :
    List (List String × AStatus) → Option (List String × AStatus)
  | [] => none
  | p :: ps => if patternMatches combined p.1 then some p else firstMatch combined ps

/-- Models `ErrorPattern.analyze_output(output, stderr, agent_name)`.  The evidence
string carries the matched pattern; the source decorates it with a ±50
character context excerpt around the match (falling back to the raw pattern
when the context search fails) — the excerpt's exact text is not used by any
claim, only that evidence is non-null exactly when a pattern matched. -/
def analyze_output (output stderr agent_name : String) : AStatus × Option String :=
  let combined := pyLower (output ++ "\n" ++ stderr)
  let patterns :=
    (if strContains (pyLower agent_name) "claude" then claudePatterns
     else if strContains (pyLower agent_name) "gemini" then geminiPatterns
     else [])
    ++ generalPatterns
  match firstMatch combined patterns with
  | some (alts, status) =>
    (status, some ("Detected error pattern: " ++ String.intercalate "|" alts))
  | none => (.completed, none)

/-- The exit-code/exception override of `AuditLogger.complete_execution_entry`
(lines 291–294): a non-zero exit code or exception only demotes a `completed`
classification to `failed_unknown`; it never changes a text-derived failure
classification. -/
def overrideStatus (s : AStatus) (exceptionOccurred : Bool) (exit_code : Int) : AStatus :=
  if (exceptionOccurred || exit_code ≠ 0) && s == .completed then .failed_unknown else s

/-- C3: the classifier maps empty output for `claude` to Completed with no
evidence; `"ok"`/`"5-hour limit reached"` to the rate-limited kind with
non-null evidence; `"ok"`/`"permission denied"` to the permission-error kind
with non-null evidence — and, the classifier being a function of the text
alone, an exit code of 0 leaves the permission-error classification intact
(the exit-code override only ever demotes `completed`). -/
theorem c3_classifier_cases :
    (analyze_output "" "" "claude" = (.completed, none))
    ∧ ((analyze_output "ok" "5-hour limit reached" "claude").1 = .failed_rate_limit
        ∧ (analyze_output "ok" "5-hour limit reached" "claude").2.isSome = true)
    ∧ ((analyze_output "ok" "permission denied" "claude").1 = .failed_permissions
        ∧ (analyze_output "ok" "permission denied" "claude").2.isSome = true)
    ∧ overrideStatus (analyze_output "ok" "permission denied" "claude").1 false 0
        = .failed_permissions := by
  refine ⟨?_, ⟨?_, ?_⟩, ⟨?_, ?_⟩, ?_⟩ <;> decide

end AuditLog

namespace StateM

/-- Models `state_manager.ExecutionState`: one stored attempt record of the
per-agent execution-state store (`unit = none` is a whole-project run). -/
structure ExecutionState where
  prompt_id : String
  agent_name : String
  unit : Option String
  status : String
  start_time : Option String
  end_time : Option String
  duration : Option Nat
  result : Option String
  error_message : Option String
  retry_count : Nat
deriving DecidableEq

/-- Models `StateManager.get_completed_units`: the set of units having a stored
`completed` record for the prompt (a `None`/empty unit is falsy and skipped).
Python returns a set; we return the deduplicated list, used only through
membership and cardinality. -/
def get_completed_units (states : List ExecutionState) (prompt_id : String) : List String :=
  (states.filterMap fun s =>
    match s.unit with
    | some u => if s.prompt_id == prompt_id && s.status == "completed" && u != ""
                then some u else none
    | none => none).dedup

/-- The `failed` unit set collected by `get_resumption_options`. -/
def failedUnits (states : List ExecutionState) (prompt_id : String) : List String :=
  (states.filterMap fun s =>
    match s.unit with
    | some u => if s.prompt_id == prompt_id && u != "" && s.status == "failed"
                then some u else none
    | none => none).dedup

/-- The `pending`/`running` unit set collected by `get_resumption_options`. -/
def pendingUnits (states : List ExecutionState) (prompt_id : String) : List String :=
  (states.filterMap fun s =>
    match s.unit with
    | some u => if s.prompt_id == prompt_id && u != ""
                   && (s.status == "pending" || s.status == "running")
                then some u else none
    | none => none).dedup

/-- The record returned by `StateManager.get_resumption_options`.
`completion_percentage` is ℚ for the Python float expression; the claims
only use its guarded zero value. -/
structure ResumptionOptions where
  available_units : List String
  completed_units : List String
  failed_units : List String
  pending_units : List String
  remaining_units : List String
  can_resume : Bool
  completion_percentage : ℚ

/-- Models `StateManager.get_resumption_options`. `detected` is the `detect_units()`
result used when the caller passes an empty (falsy) `available_units`. -/
def get_resumption_options (states : List ExecutionState) (prompt_id : String)
    (available_units detected : List String) : ResumptionOptions :=
  let avail := if available_units.isEmpty then detected else available_units
  let completed := get_completed_units states prompt_id
  let remaining := avail.filter (fun u => !(completed.contains u))
  { available_units := avail
    completed_units := completed
    failed_units := failedUnits states prompt_id
    pending_units := pendingUnits states prompt_id
    remaining_units := remaining
    can_resume := decide (0 < remaining.length)
    completion_percentage :=
      if avail.isEmpty then 0 else ((completed.length : ℚ) / (avail.length : ℚ)) * 100 }

/-- Models `StateManager.clear_prompt_execution_state` with `units_to_clear=None`:
drop every state of the prompt, keep all others. -/
def clear_prompt_execution_state (states : List ExecutionState) (prompt_id : String) :
    List ExecutionState :=
  states.filter (fun s => !(s.prompt_id == prompt_id))

/-- Models `StateManager.add_execution_state`: remove any state for the same
(prompt, unit) pair, then append the new one. -/
def add_execution_state (states : List ExecutionState) (new : ExecutionState) :
    List ExecutionState :=
  (states.filter fun s => !(s.prompt_id == new.prompt_id && s.unit == new.unit)) ++ [new]

/-- Models `StateManager.is_prompt_completed`. -/
def is_prompt_completed (states : List ExecutionState) (prompt_id : String)
    (available_units : Option (List String)) : Bool :=
  let prompt_states := states.filter (fun s => s.prompt_id == prompt_id)
  if prompt_states.isEmpty then false
  else
    let singleCase := prompt_states.any (fun s => s.status == "completed" && s.unit == none)
    match available_units with
    | none => singleCase
    | some av =>
      if av.isEmpty then singleCase
      else
        let completed := (prompt_states.filterMap fun s =>
          match s.unit with
          | some u => if s.status == "completed" && u != "" then some u else none
          | none => none).dedup
        completed.length == av.length

/-- The single-scope branch of `ExecutionEngine.calculate_execution_plan`
(lines 145–157): one pending execution unless the prompt already has a
completed whole-project record (and no force restart). -/
def singleExecutionCount (states : List ExecutionState) (prompt_id : String)
    (force_restart : Bool) : Nat :=
  if !(is_prompt_completed states prompt_id none) || force_restart then 1 else 0

/-- The remaining-units computation of
`ExecutionEngine._execute_per_unit_prompt` (lines 283–284), iterated in
order by the engine's unit loop. -/
def engineRemainingUnits (states : List ExecutionState) (prompt_id : String)
    (available : List String) : List String :=
  available.filter (fun u => !((get_completed_units states prompt_id).contains u))

/-- A stored record marking the unit completed for the prompt. -/
def HasCompletedRecord (states : List ExecutionState) (prompt_id u : String) : Prop :=
  ∃ s ∈ states, s.prompt_id = prompt_id ∧ s.status = "completed" ∧ s.unit = some u ∧ u ≠ ""

/-- A stored record marking the unit failed for the prompt. -/
def HasFailedRecord (states : List ExecutionState) (prompt_id u : String) : Prop :=
  ∃ s ∈ states, s.prompt_id = prompt_id ∧ s.status = "failed" ∧ s.unit = some u ∧ u ≠ ""

theorem mem_get_completed_units (states : List ExecutionState) (pid u : String) :
    u ∈ get_completed_units states pid ↔ HasCompletedRecord states pid u := by
  unfold get_completed_units HasCompletedRecord
  rw [List.mem_dedup, List.mem_filterMap]
  constructor
  · rintro ⟨s, hs, hf⟩
    refine ⟨s, hs, ?_⟩
    cases hunit : s.unit with
    | none => simp [hunit] at hf
    | some v =>
      simp only [hunit] at hf
      by_cases hcond : (s.prompt_id == pid && s.status == "completed" && v != "") = true
      · rw [if_pos hcond] at hf
        obtain ⟨⟨h1, h2⟩, h3⟩ := by simpa [Bool.and_eq_true] using hcond
        cases hf
        exact ⟨by simpa using h1, by simpa using h2, by simp [hunit], by simpa using h3⟩
      · rw [if_neg hcond] at hf
        cases hf
  · rintro ⟨s, hs, h1, h2, h3, h4⟩
    refine ⟨s, hs, ?_⟩
    simp [h3, h1, h2, h4]

/-- C4: the Resumption Planner's remaining set is exactly the live partition
list minus the units with a stored completed record: a unit outside the live
list is never remaining, a live unit with a (only) failed record is
remaining (given the store's one-record-per-(prompt, unit) invariant), and
the engine's per-unit loop iterates exactly this remaining set. -/
theorem c4_planner_remaining (states : List ExecutionState) (pid : String)
    (available detected : List String) (u : String)
    (huniq : ∀ s1 ∈ states, ∀ s2 ∈ states, s1.prompt_id = pid → s2.prompt_id = pid →
      s1.unit = s2.unit → s1 = s2) :
    (u ∈ (get_resumption_options states pid available detected).remaining_units
      ↔ u ∈ (if available.isEmpty then detected else available)
          ∧ ¬ HasCompletedRecord states pid u)
    ∧ (u ∉ (if available.isEmpty then detected else available)
        → u ∉ (get_resumption_options states pid available detected).remaining_units)
    ∧ (u ∈ (if available.isEmpty then detected else available)
        → HasFailedRecord states pid u
        → u ∈ (get_resumption_options states pid available detected).remaining_units)
    ∧ (get_resumption_options states pid available detected).remaining_units
        = engineRemainingUnits states pid (if available.isEmpty then detected else available) := by
  have hcontains : ∀ w : String,
      ((get_completed_units states pid).contains w = true ↔ HasCompletedRecord states pid w) :=
    fun w => Iff.trans List.elem_iff (mem_get_completed_units states pid w)
  have hchar : u ∈ (get_resumption_options states pid available detected).remaining_units
      ↔ u ∈ (if available.isEmpty then detected else available)
        ∧ ¬ HasCompletedRecord states pid u := by
    change u ∈ (if available.isEmpty then detected else available).filter
        (fun v => !((get_completed_units states pid).contains v)) ↔ _
    simp only [List.mem_filter, Bool.not_eq_true']
    constructor
    · rintro ⟨h1, h2⟩
      refine ⟨h1, fun hc => ?_⟩
      have := (hcontains u).mpr hc
      rw [this] at h2
      cases h2
    · rintro ⟨h1, h2⟩
      refine ⟨h1, ?_⟩
      cases hb : (get_completed_units states pid).contains u with
      | false => rfl
      | true => exact absurd ((hcontains u).mp hb) h2
  refine ⟨hchar, ?_, ?_, rfl⟩
  · intro hout hmem
    exact hout (hchar.mp hmem).1
  · intro hin hfail
    refine hchar.mpr ⟨hin, ?_⟩
    rintro ⟨s, hs, h1, h2, h3, h4⟩
    obtain ⟨t, ht, g1, g2, g3, g4⟩ := hfail
    have : s = t := huniq s hs t ht h1 g1 (by rw [h3, g3])
    subst this
    rw [h2] at g2
    exact absurd g2 (by decide)

/-- A concrete failed record for `unit2` of prompt `p1`. -/
def sampleFailedState : ExecutionState :=
  { prompt_id := "p1", agent_name := "claude", unit := some "unit2",
    status := "failed", start_time := none, end_time := none, duration := none,
    result := none, error_message := none, retry_count := 0 }

/-- A concrete store holding just `sampleFailedState`. -/
def sampleFailedStore : List ExecutionState := [sampleFailedState]

/-- Witness for `c4_planner_remaining`: one failed record for `unit2`; with
live units `[unit1, unit2]` the failed-but-live `unit2` is remaining. -/
theorem c4_planner_remaining_witness :
    (∀ s1 ∈ sampleFailedStore, ∀ s2 ∈ sampleFailedStore,
      s1.prompt_id = "p1" → s2.prompt_id = "p1" → s1.unit = s2.unit → s1 = s2)
    ∧ "unit2" ∈ (get_resumption_options sampleFailedStore "p1"
        ["unit1", "unit2"] []).remaining_units := by
  refine ⟨by decide, ?_⟩
  refine (c4_planner_remaining sampleFailedStore "p1" ["unit1", "unit2"] [] "unit2"
    (by decide)).2.2.1 (by decide) ?_
  exact ⟨sampleFailedState, by decide, rfl, rfl, rfl, by decide⟩

/-- C8: for a Single-scope directive the planned execution count is 0 exactly
when a stored completed whole-project (`unit = none`) record exists for the
directive in the agent's store, and it is never more than 1. -/
theorem is_prompt_completed_none (states : List ExecutionState) (pid : String) :
    is_prompt_completed states pid none
      = (states.filter (fun s => s.prompt_id == pid)).any
          (fun s => s.status == "completed" && s.unit == none) := by
  unfold is_prompt_completed
  by_cases h : (states.filter (fun s => s.prompt_id == pid)).isEmpty = true
  · rw [List.isEmpty_iff] at h
    rw [h]
    simp
  · simp [h]

theorem c8_single_scope_count (states : List ExecutionState) (pid : String) :
    (singleExecutionCount states pid false = 0
      ↔ ∃ s ∈ states, s.prompt_id = pid ∧ s.status = "completed" ∧ s.unit = none)
    ∧ ∀ force, singleExecutionCount states pid force ≤ 1 := by
  constructor
  · unfold singleExecutionCount
    rw [is_prompt_completed_none]
    by_cases h : (states.filter (fun s => s.prompt_id == pid)).any
        (fun s => s.status == "completed" && s.unit == none) = true
    · simp only [h, Bool.not_true, Bool.false_or, Bool.false_eq_true, if_false]
      constructor
      · intro _
        rw [List.any_eq_true] at h
        obtain ⟨s, hs, hp⟩ := h
        rw [List.mem_filter] at hs
        rw [Bool.and_eq_true] at hp
        exact ⟨s, hs.1, by simpa using hs.2, by simpa using hp.1, by simpa using hp.2⟩
      · intro _
        trivial
    · rw [Bool.not_eq_true] at h
      simp only [h, Bool.not_false, Bool.true_or, if_true]
      constructor
      · intro hc
        exact absurd hc one_ne_zero
      · rintro ⟨s, hs, h1, h2, h3⟩
        exfalso
        rw [← Bool.not_eq_true, List.any_eq_true] at h
        exact h ⟨s, List.mem_filter.mpr ⟨hs, by simp [h1]⟩, by simp [h2, h3]⟩
  · intro force
    unfold singleExecutionCount
    by_cases h : (!(is_prompt_completed states pid none) || force) = true
    · simp [h]
    · simp [h]

/-- C9: computing resumption options with an empty live partition list is
total and degenerate as expected: available and remaining are empty, the
directive is not resumable, and the guarded completion percentage is 0
(the division by the unit count is never taken). -/
theorem c9_empty_units_total (states : List ExecutionState) (pid : String) :
    (get_resumption_options states pid [] []).completion_percentage = 0
    ∧ (get_resumption_options states pid [] []).available_units = []
    ∧ (get_resumption_options states pid [] []).remaining_units = []
    ∧ (get_resumption_options states pid [] []).can_resume = false := by
  unfold get_resumption_options
  simp

end StateM

namespace Schema

/-- Models `unified_schema.ExecutionResult`: one execution result stored inside a
prompt's execution metadata. -/
structure ExecutionResult where
  unit : Option String
  status : String
  start_time : Option String
  end_time : Option String
  duration : Option Nat
  result : Option String
  error_message : Option String
  retry_count : Nat
  model_used : Option String
  timestamp : Option String
  success : Option Bool
  agent_name : Option String
  output_preview : Option String
deriving DecidableEq

/-- Models `unified_schema.ExecutionStatus`: the six execution workflow statuses. -/
inductive ExecStatus where
  | pending
  | running
  | done
  | failed
  | skipped
  | cancelled
deriving DecidableEq

/-- The `.value` string of each `ExecutionStatus` member. -/
def ExecStatus.value : ExecStatus → String
  | .pending => "pending"
  | .running => "running"
  | .done => "done"
  | .failed => "failed"
  | .skipped => "skipped"
  | .cancelled => "cancelled"

/-- Models `[s.value for s in ExecutionStatus]`. -/
def execStatusValues : List String :=
  ["pending", "running", "done", "failed", "skipped", "cancelled"]

/-- Models `ExecutionStatus(s)` as a partial lookup (`none` is the `ValueError`). -/
def execStatusOfValue : String → Option ExecStatus
  | "pending" => some .pending
  | "running" => some .running
  | "done" => some .done
  | "failed" => some .failed
  | "skipped" => some .skipped
  | "cancelled" => some .cancelled
  | _ => none

/-- Models `unified_schema.ExecutionMetadata` (fields as in the dataclass). -/
structure ExecutionMetadata where
  execution_command : Option String
  scope_type : String
  total_iterations : Nat
  results : List ExecutionResult
  last_execution : Option String
  execution_status : String
  status : String
deriving DecidableEq

/-- The legacy-to-new mapping of `ExecutionMetadata.__post_init__`. -/
def legacyToNew : String → Option ExecStatus
  | "not_started" => some .pending
  | "in_progress" => some .running
  | "completed" => some .done
  | "failed" => some .failed
  | "partial" => some .failed
  | _ => none

/-- The new-to-legacy mapping kept in sync by `ExecutionMetadata.update_status`. -/
def newToLegacy : ExecStatus → String
  | .pending => "not_started"
  | .running => "in_progress"
  | .done => "completed"
  | .failed => "failed"
  | .skipped => "failed"
  | .cancelled => "failed"

/-- Models `ExecutionMetadata.__post_init__`: migrate a recognised legacy
`execution_status` into `status` when `status` still holds the default, then
normalise any unrecognised `status` to `pending`. -/
def postInit (m : ExecutionMetadata) : ExecutionMetadata :=
  let m1 :=
    if m.execution_status ≠ "not_started" && m.status == "pending" then
      match legacyToNew m.execution_status with
      | some v => { m with status := v.value }
      | none => m
    else m
  if execStatusValues.contains m1.status then m1 else { m1 with status := "pending" }

/-- The valid-transition table of `ExecutionMetadata.can_transition_to`. -/
def transitionTargets : ExecStatus → List ExecStatus
  | .pending => [.running, .skipped, .cancelled]
  | .running => [.done, .failed, .cancelled]
  | .done => [.pending]
  | .failed => [.pending]
  | .skipped => [.pending]
  | .cancelled => [.pending]

/-- Models `ExecutionMetadata.can_transition_to`; `none` models the `ValueError`
raised by `ExecutionStatus(self.status)` on an invalid stored status. -/
def canTransitionTo (m : ExecutionMetadata) (new : ExecStatus) : Option Bool :=
  match execStatusOfValue m.status with
  | none => none
  | some cur => some ((transitionTargets cur).contains new)

/-- Models `ExecutionMetadata.update_status`: on a valid transition set the new
status (and the synced legacy field) and report `true`; otherwise leave the
record unchanged and report `false`; `none` models the `ValueError`. -/
def updateStatus (m : ExecutionMetadata) (new : ExecStatus) :
    Option (ExecutionMetadata × Bool) :=
  match canTransitionTo m new with
  | none => none
  | some true => some ({ m with status := new.value, execution_status := newToLegacy new }, true)
  | some false => some (m, false)

/-- Models `ExecutionMetadata._update_execution_status`: recompute the legacy
aggregate status from the stored results. -/
def computeExecutionStatus (results : List ExecutionResult) : String :=
  if results.isEmpty then "not_started"
  else
    let statuses := results.map (·.status)
    if statuses.any (· == "running") then "in_progress"
    else if statuses.all (· == "completed") then "completed"
    else if statuses.all (fun s => s == "completed" || s == "failed") then
      if statuses.any (· == "completed") then "partial" else "failed"
    else if statuses.any (· == "failed") then "partial"
    else "in_progress"

/-- Models `ExecutionMetadata.add_result`: drop any stored result for the same unit,
append the new one, refresh `last_execution` and the aggregate status. -/
def addResult (m : ExecutionMetadata) (r : ExecutionResult) : ExecutionMetadata :=
  let results := (m.results.filter fun x => !(x.unit == r.unit)) ++ [r]
  let last :=
    match r.end_time with
    | some t => some t
    | none => match r.start_time with
      | some t => some t
      | none => m.last_execution
  { m with results := results, last_execution := last,
           execution_status := computeExecutionStatus results }

theorem status_mem_of_value (v : ExecStatus) : v.value ∈ execStatusValues := by
  cases v <;> decide

theorem contains_iff_mem_values (s : String) :
    execStatusValues.contains s = true ↔ s ∈ execStatusValues :=
  List.elem_iff

theorem updateStatus_cases (mm m' : ExecutionMetadata) (new : ExecStatus) (b : Bool)
    (h : updateStatus mm new = some (m', b)) : m'.status = new.value ∨ m' = mm := by
  unfold updateStatus at h
  cases hct : canTransitionTo mm new with
  | none =>
    rw [hct] at h
    simp at h
  | some tv =>
    rw [hct] at h
    cases tv with
    | true =>
      simp only [Option.some.injEq, Prod.mk.injEq] at h
      left
      rw [← h.1]
    | false =>
      simp only [Option.some.injEq, Prod.mk.injEq] at h
      right
      exact h.1.symm

/-- Full characterisation of the status produced by `postInit`. -/
theorem postInit_status (m : ExecutionMetadata) :
    (postInit m).status
      = (if m.status = "pending"
         then ((legacyToNew m.execution_status).map ExecStatus.value).getD "pending"
         else if m.status ∈ execStatusValues then m.status else "pending") := by
  unfold postInit
  by_cases hp : m.status = "pending"
  · by_cases hns : m.execution_status = "not_started"
    · simp [hp, hns, legacyToNew, execStatusValues, ExecStatus.value]
    · cases hleg : legacyToNew m.execution_status with
      | none => simp [hp, hns, hleg, execStatusValues]
      | some v =>
        have hv : execStatusValues.contains v.value = true :=
          (contains_iff_mem_values _).mpr (status_mem_of_value v)
        simp [hp, hns, hleg, hv, status_mem_of_value v]
  · by_cases hmv : m.status ∈ execStatusValues
    · have hmv' : execStatusValues.contains m.status = true :=
        (contains_iff_mem_values _).mpr hmv
      simp [hp, hmv, hmv']
    · have hmv' : execStatusValues.contains m.status = false := by
        cases hb : execStatusValues.contains m.status with
        | false => rfl
        | true => exact absurd ((contains_iff_mem_values _).mp hb) hmv
      simp [hp, hmv, hmv']

theorem postInit_status_mem (m : ExecutionMetadata) :
    (postInit m).status ∈ execStatusValues := by
  rw [postInit_status]
  by_cases hp : m.status = "pending"
  · simp only [hp, if_true]
    cases hleg : legacyToNew m.execution_status with
    | none => simp [hleg]; decide
    | some v => simp [hleg, status_mem_of_value v]
  · simp only [hp, if_false]
    by_cases hmv : m.status ∈ execStatusValues
    · simp [hmv]
    · simp [hmv]; decide

/-- C10: `postInit` always yields one of the six execution statuses —
migrating a recognised legacy `execution_status` when `status` holds the
default, keeping a recognised explicit `status`, and normalising anything
unrecognised to `pending` — and a successful `update_status` keeps the
status inside the six-value set. -/
theorem c10_status_invariant (m : ExecutionMetadata) (new : ExecStatus)
    (m' : ExecutionMetadata) (b : Bool)
    (hup : updateStatus (postInit m) new = some (m', b)) :
    (postInit m).status ∈ execStatusValues
    ∧ m'.status ∈ execStatusValues
    ∧ (postInit m).status
        = (if m.status = "pending"
           then ((legacyToNew m.execution_status).map ExecStatus.value).getD "pending"
           else if m.status ∈ execStatusValues then m.status else "pending") := by
  refine ⟨postInit_status_mem m, ?_, postInit_status m⟩
  rcases updateStatus_cases (postInit m) m' new b hup with h | h
  · rw [h]
    exact status_mem_of_value new
  · rw [h]
    exact postInit_status_mem m

/-- A metadata record carrying only the legacy `completed` aggregate status. -/
def legacyMeta : ExecutionMetadata :=
  { execution_command := none, scope_type := "single", total_iterations := 1,
    results := [], last_execution := none, execution_status := "completed",
    status := "pending" }

/-- Models `legacyMeta` after migration to `done` and a `update_status` to pending. -/
def legacyMetaUpdated : ExecutionMetadata :=
  { execution_command := none, scope_type := "single", total_iterations := 1,
    results := [], last_execution := none, execution_status := "not_started",
    status := "pending" }

/-- Witness for `c10_status_invariant`: a record carrying the legacy
`completed` status migrates to `done`, and the subsequent (valid) update to
`pending` stays inside the six-value set. -/
theorem c10_status_invariant_witness :
    updateStatus (postInit legacyMeta) ExecStatus.pending = some (legacyMetaUpdated, true)
    ∧ (postInit legacyMeta).status ∈ execStatusValues := by
  refine ⟨by decide, ?_⟩
  exact (c10_status_invariant legacyMeta ExecStatus.pending legacyMetaUpdated true
    (by decide)).1

end Schema

namespace Engine

/-- Models `agent_handler.AgentExecutionResult`: the result type produced by the
unified handler and consumed throughout the engine's unattended path. -/
structure AgentExecutionResult where
  success : Bool
  output : String
  error : Option String
  duration : Nat
  timeout_occurred : Bool
  fallback_used : Bool
  model_used : Option String
  command_executed : Option String
deriving DecidableEq

/-- The attribute access `result.limit_hit` performed by
`ExecutionEngine._execute_with_retry` (line 535).  The dataclass
`agent_handler.AgentExecutionResult` — the type every unattended execution
returns — defines no `limit_hit` field (only the legacy
`agent_handlers.AgentExecutionResult` does), so Python attribute lookup
raises `AttributeError` whichever result is supplied. -/
def limitHitAttr (_r : AgentExecutionResult) : Except String Bool :=
  .error "AttributeError: limit_hit"

/-- Models `ExecutionEngine._execute_with_retry`.  Its
`for attempt in range(max_retries + 1)` loop exits during its very first
iteration on every path: a successful result returns (recording
`attempt = 0` extra retries), a limit hit breaks, any other failure breaks,
and after a break the last result is returned; so the loop unrolls to its
first iteration and no branch ever substitutes the fallback model or calls
the agent a second time.  The value is the result together with the retries
and limit-hit counts added to the session statistics; the `.error` case is
the uncaught exception from the `result.limit_hit` access. -/
def stoppedResult : AgentExecutionResult :=
  { success := false, output := "", error := some "Execution stopped",
    duration := 0, timeout_occurred := false, fallback_used := false,
    model_used := none, command_executed := none }

def executeWithRetry (shouldStop : Bool) (firstResult : AgentExecutionResult) :
    Except String (AgentExecutionResult × Nat × Nat) :=
  if shouldStop then
    .ok (stoppedResult, 0, 0)
  else
    if firstResult.success then .ok (firstResult, 0, 0)
    else
      match limitHitAttr firstResult with
      | .error e => .error e
      | .ok true => .ok (firstResult, 0, 1)
      | .ok false => .ok (firstResult, 0, 0)

/-- A rate-limited unattended failure: the agent invocation came back
unsuccessful with the five-hour-limit message in its error text. -/
def rateLimitedResult : AgentExecutionResult :=
  { success := false, output := "", error := some "5-hour limit reached",
    duration := 42, timeout_occurred := false, fallback_used := false,
    model_used := some "sonnet", command_executed := none }

/-- C2 (code evidence): the error text of `rateLimitedResult` classifies as
rate-limited, yet the engine's retry wrapper raises `AttributeError` on the
missing `limit_hit` field instead of retrying the unit with the fallback
model — no fallback substitution, no incremented retry count and no
`model_used = "primary → fallback"` record is ever produced in unattended
mode. -/
theorem c2_no_fallback_retry :
    (AuditLog.analyze_output "" "5-hour limit reached" "claude").1
      = AuditLog.AStatus.failed_rate_limit
    ∧ executeWithRetry false rateLimitedResult = .error "AttributeError: limit_hit" := by
  exact ⟨by decide, rfl⟩

/-- The replace-first-or-append update of the per-agent execution-state
store performed by `ExecutionEngine._store_execution_result`
(lines 402–415). -/
def replaceOrAppend (states : List StateM.ExecutionState) (new : StateM.ExecutionState) :
    List StateM.ExecutionState :=
  match states with
  | [] => [new]
  | s :: rest =>
    if s.prompt_id == new.prompt_id && s.unit == new.unit then new :: rest
    else s :: replaceOrAppend rest new

/-- One stored execution result inside a prompt's YAML metadata, as written
by `ExecutionEngine._update_yaml_metadata`. -/
structure YamlExecResult where
  unit : Option String
  timestamp : String
  duration : Nat
  success : Bool
  agent_name : String
  output_preview : Option String
  error_message : Option String
deriving DecidableEq

/-- The `metadata.execution` mapping of a prompt record. -/
structure YamlExecMeta where
  execution_command : String
  scope_type : String
  total_iterations : Nat
  results : List YamlExecResult
  last_execution : Option String
  execution_status : String
deriving DecidableEq

/-- One serialized prompt record of the durable directive collection:
its id, its `metadata.execution` section (absent until first written) and
the remainder of its serialized content, which the updater never touches. -/
structure YamlPromptRecord where
  id : String
  execMeta : Option YamlExecMeta
  rest : List (String × String)
deriving DecidableEq

/-- The in-place mutation `_update_yaml_metadata` applies to the matched
prompt: ensure the `metadata.execution` structure exists, append the new
execution result, refresh `last_execution` and the overall status (the new
overall status, computed from the state store and result analysis, is
passed in as `newStatus`; no claim depends on its value). -/
def applyYamlUpdate (p : YamlPromptRecord) (newResult : YamlExecResult)
    (now newStatus scope : String) : YamlPromptRecord :=
  let meta := p.execMeta.getD
    { execution_command := "", scope_type := scope, total_iterations := 1,
      results := [], last_execution := none, execution_status := "not_started" }
  let meta2 : YamlExecMeta :=
    { meta with results := meta.results ++ [newResult],
                last_execution := some now, execution_status := newStatus }
  { p with execMeta := some meta2 }

/-- Models `ExecutionEngine._update_yaml_metadata`: mutate the first prompt whose
id matches and leave every other record untouched (`break` after the
match; an absent id leaves the collection unchanged). -/
def updateYamlMetadata (prompts : List YamlPromptRecord) (pid : String)
    (newResult : YamlExecResult) (now newStatus scope : String) : List YamlPromptRecord :=
  match prompts with
  | [] => []
  | p :: rest =>
    if p.id == pid then applyYamlUpdate p newResult now newStatus scope :: rest
    else p :: updateYamlMetadata rest pid newResult now newStatus scope

/-- The stored results list of the (first) prompt with the given id. -/
def yamlResultsFor : List YamlPromptRecord → String → List YamlExecResult
  | [], _ => []
  | p :: rest, pid =>
    if p.id == pid then
      match p.execMeta with
      | some meta => meta.results
      | none => []
    else yamlResultsFor rest pid

/-- C5: updating one directive's stored state or history never alters
another directive's record: the state-store replace-or-append preserves
every state of a different prompt id verbatim, clearing a prompt's state
preserves all other prompts' states verbatim, and the YAML updater leaves
every record with a different id byte-equal (positionally unchanged). -/
theorem c5_directive_isolation (states : List StateM.ExecutionState)
    (new : StateM.ExecutionState) (pid : String) (prompts : List YamlPromptRecord)
    (r : YamlExecResult) (now st scope : String) :
    ((replaceOrAppend states new).filter (fun s => !(s.prompt_id == new.prompt_id))
      = states.filter (fun s => !(s.prompt_id == new.prompt_id)))
    ∧ ((StateM.clear_prompt_execution_state states pid).filter
          (fun s => !(s.prompt_id == pid))
        = states.filter (fun s => !(s.prompt_id == pid)))
    ∧ List.Forall₂ (fun q p => p.id = pid ∨ q = p)
        (updateYamlMetadata prompts pid r now st scope) prompts := by
  refine ⟨?_, ?_, ?_⟩
  · induction states with
    | nil => simp [replaceOrAppend]
    | cons s rest ih =>
      unfold replaceOrAppend
      by_cases h : (s.prompt_id == new.prompt_id && s.unit == new.unit) = true
      · rw [if_pos h]
        have h' : (s.prompt_id == new.prompt_id) = true ∧ (s.unit == new.unit) = true := by
          simpa using h
        rw [List.filter_cons, List.filter_cons]
        simp [h'.1]
      · rw [if_neg (by simpa using h)]
        rw [List.filter_cons, List.filter_cons, ih]
  · unfold StateM.clear_prompt_execution_state
    rw [List.filter_filter]
    simp
  · induction prompts with
    | nil => exact List.Forall₂.nil
    | cons p rest ih =>
      unfold updateYamlMetadata
      by_cases h : (p.id == pid) = true
      · rw [if_pos h]
        exact List.Forall₂.cons (Or.inl (by simpa using h))
          (List.forall₂_same.mpr (fun x _ => Or.inr rfl))
      · rw [if_neg (by simpa using h)]
        exact List.Forall₂.cons (Or.inr rfl) ih

/-- C6 (amended): in the unified-schema metadata and in the per-agent
execution-state store a later result for the same (directive, partition)
pair supersedes the earlier one — after the store operation exactly the new
record is stored for that pair and all other pairs are untouched — whereas
the engine's YAML metadata updater appends each result to the matched
directive's results list without deduplication. -/
theorem c6_supersede_per_pair (m : Schema.ExecutionMetadata) (r : Schema.ExecutionResult)
    (states : List StateM.ExecutionState) (new : StateM.ExecutionState)
    (prompts : List YamlPromptRecord) (pid : String) (r2 : YamlExecResult)
    (now st scope : String) :
    ((Schema.addResult m r).results.filter (fun x => x.unit == r.unit) = [r])
    ∧ ((Schema.addResult m r).results.filter (fun x => !(x.unit == r.unit))
        = m.results.filter (fun x => !(x.unit == r.unit)))
    ∧ ((StateM.add_execution_state states new).filter
        (fun s => s.prompt_id == new.prompt_id && s.unit == new.unit) = [new])
    ∧ (yamlResultsFor (updateYamlMetadata prompts pid r2 now st scope) pid
        = if prompts.any (fun p => p.id == pid)
          then yamlResultsFor prompts pid ++ [r2] else []) := by
  refine ⟨?_, ?_, ?_, ?_⟩
  · unfold Schema.addResult
    rw [List.filter_append, List.filter_filter]
    simp
  · unfold Schema.addResult
    rw [List.filter_append, List.filter_filter]
    simp
  · unfold StateM.add_execution_state
    rw [List.filter_append, List.filter_filter]
    simp
  · induction prompts with
    | nil => simp [updateYamlMetadata, yamlResultsFor]
    | cons p rest ih =>
      by_cases h : (p.id == pid) = true
      · cases hm : p.execMeta with
        | none =>
          simp [updateYamlMetadata, yamlResultsFor, applyYamlUpdate, h, hm, List.any_cons]
        | some meta =>
          simp [updateYamlMetadata, yamlResultsFor, applyYamlUpdate, h, hm, List.any_cons]
      · have hf : (p.id == pid) = false := by simpa using h
        simp [updateYamlMetadata, yamlResultsFor, hf, List.any_cons, ih]

/-- A seeded directive record with an empty execution history. -/
def sampleYamlPrompt : YamlPromptRecord :=
  { id := "p1"
    execMeta := some
      { execution_command := "", scope_type := "per-unit", total_iterations := 1,
        results := [], last_execution := none, execution_status := "not_started" }
    rest := [] }

/-- A stored execution result for partition `unit1`. -/
def sampleYamlResult : YamlExecResult :=
  { unit := some "unit1", timestamp := "t1", duration := 5, success := true,
    agent_name := "claude", output_preview := some "ok", error_message := none }

/-- C6 counterexample: storing a result for (`p1`, `unit1`) twice through the
engine's YAML metadata updater leaves two stored results for that
(directive, partition) pair — the claimed at-most-one-per-pair property
fails on the YAML history. -/
theorem c6_yaml_duplicates :
    ((yamlResultsFor
        (updateYamlMetadata
          (updateYamlMetadata [sampleYamlPrompt] "p1" sampleYamlResult "t1" "partial" "per-unit")
          "p1" sampleYamlResult "t2" "partial" "per-unit") "p1").filter
      (fun x => x.unit == some "unit1")).length = 2 := by
  decide

theorem mem_insertByKey (x y : String) (l : List String) :
    y ∈ Utils.insertByKey x l ↔ y = x ∨ y ∈ l := by
  induction l with
  | nil => simp [Utils.insertByKey]
  | cons z zs ih =>
    unfold Utils.insertByKey
    by_cases h : Utils.unitKey z < Utils.unitKey x
    · rw [if_pos h]
      simp only [List.mem_cons, ih]
      tauto
    · rw [if_neg h]
      simp [List.mem_cons]

theorem pairwise_insertByKey (x : String) (l : List String)
    (h : l.Pairwise (fun a b => Utils.unitKey a ≤ Utils.unitKey b)) :
    (Utils.insertByKey x l).Pairwise (fun a b => Utils.unitKey a ≤ Utils.unitKey b) := by
  induction l with
  | nil => simp [Utils.insertByKey]
  | cons y ys ih =>
    unfold Utils.insertByKey
    rw [List.pairwise_cons] at h
    by_cases hlt : Utils.unitKey y < Utils.unitKey x
    · rw [if_pos hlt]
      rw [List.pairwise_cons]
      refine ⟨?_, ih h.2⟩
      intro z hz
      rcases (mem_insertByKey x z ys).mp hz with rfl | hz
      · exact le_of_lt hlt
      · exact h.1 z hz
    · rw [if_neg hlt]
      push_neg at hlt
      rw [List.pairwise_cons]
      refine ⟨?_, List.pairwise_cons.mpr h⟩
      intro z hz
      rcases List.mem_cons.mp hz with rfl | hz
      · exact hlt
      · exact le_trans hlt (h.1 z hz)

theorem sortByKey_sorted (l : List String) :
    (Utils.sortByKey l).Pairwise (fun a b => Utils.unitKey a ≤ Utils.unitKey b) := by
  induction l with
  | nil => simp [Utils.sortByKey]
  | cons x xs ih => exact pairwise_insertByKey x _ ih

/-- C7: the partition detector's output is sorted by the embedded numeric
ordinal; the engine's per-unit loop iterates the remaining units as a
subsequence of that list, hence strictly sequentially in the same sorted
order; and the sort is numeric, not lexicographic — ordinal 10 comes after
ordinal 9 (lexicographically `unit10` would precede `unit2` and `unit9`),
while non-directories and names without a digit ordinal are dropped. -/
theorem c7_ordinal_order (entries : List Utils.DirEntry)
    (states : List StateM.ExecutionState) (pid : String) :
    (Utils.detect_units entries).Pairwise (fun a b => Utils.unitKey a ≤ Utils.unitKey b)
    ∧ (StateM.engineRemainingUnits states pid (Utils.detect_units entries)).Sublist
        (Utils.detect_units entries)
    ∧ (StateM.engineRemainingUnits states pid (Utils.detect_units entries)).Pairwise
        (fun a b => Utils.unitKey a ≤ Utils.unitKey b)
    ∧ Utils.detect_units
        [⟨"unit2", true⟩, ⟨"unit10", true⟩, ⟨"unit9", true⟩,
         ⟨"notunit3", true⟩, ⟨"unitx", true⟩, ⟨"unit1", false⟩]
      = ["unit2", "unit9", "unit10"] := by
  have hsorted : (Utils.detect_units entries).Pairwise
      (fun a b => Utils.unitKey a ≤ Utils.unitKey b) := by
    unfold Utils.detect_units
    exact sortByKey_sorted _
  refine ⟨hsorted, ?_, ?_, ?_⟩
  · exact List.filter_sublist _
  · exact List.Pairwise.filter _ hsorted
  · decide

end Engine

end LearnCloud
